import Mathlib

/-!
Verification of the balanced-dice simulator.

A shallow embedding of the two source files:
  * `balanced-dice.py` — the core simulation (distribution table, balanced
    queue, rollers, simulation driver);
  * `balanced_dice_gui.py` — the frequency aggregator and the interactive
    session state of `BalancedDiceGUI.start_simulation`.

Randomness is modelled by oracle parameters:
  * a die tape `d : Nat → Int`, where `d k` is the result of the `k`-th
    call of `random.randint(1, 6)`;
  * shuffle functions `shuffle : List Int → List Int` standing for
    `random.shuffle`; theorems assume the shuffle permutes its input
    (`(shuffle l).Perm l`).  The simulation driver receives a family
    `shuffles : Nat → List Int → List Int`, `shuffles i` being the fresh
    shuffle used if a rebuild happens during iteration `i`.
Python `list.pop()` removes the last element and raises on an empty list;
it is embedded as `getLast?`/`dropLast` with an `Option` result, `none`
standing for the uncaught `IndexError`.
-/

/-- Expected distribution of dice rolls (2-12): the dict
`EXPECTED_DIST_2_12` of the source, as an association list in insertion
order. -/
def EXPECTED_DIST_2_12 : List (Int × Nat) :=
  [(2, 1), (3, 2), (4, 3), (5, 4), (6, 5), (7, 6), (8, 5), (9, 4),
   (10, 3), (11, 2), (12, 1)]

/-- The loop of `create_balanced_queue` before the shuffle:
`queue = []` then `queue.extend([number]*count)` for each entry. -/
def expand_dist (dist : List (Int × Nat)) : List Int :=
  dist.foldl (fun queue p => queue ++ List.replicate p.2 p.1) []

/-- `create_balanced_queue(dist)`: expand the distribution, then
`random.shuffle(queue)` — the shuffle is the oracle argument. -/
def create_balanced_queue (shuffle : List Int → List Int)
    (dist : List (Int × Nat)) : List Int :=
  shuffle (expand_dist dist)

/-- `roll_standard_dice()`: the sum of two die draws. -/
def roll_standard_dice (d1 d2 : Int) : Int :=
  d1 + d2

/-- `roll_balanced_dice(queue)`: if the queue is empty it is regenerated
from `EXPECTED_DIST_2_12`; then `queue.pop()` removes and returns the last
element.  `none` models `IndexError` (pop from an empty list). -/
def roll_balanced_dice (shuffle : List Int → List Int)
    (queue : List Int) : Option (Int × List Int) :=
  let q := if queue = [] then create_balanced_queue shuffle EXPECTED_DIST_2_12
           else queue
  match q.getLast? with
  | some v => some (v, q.dropLast)
  | none => none

/-- `simulate_rolls(roll_standard_dice, num_rolls)`: the stateless branch of
the driver; iteration `i` consumes die draws `2*i` and `2*i+1`. -/
def simulate_rolls_standard (d : Nat → Int) (num_rolls : Nat) : List Int :=
  (List.range num_rolls).map (fun i => roll_standard_dice (d (2 * i)) (d (2 * i + 1)))

/-- `simulate_rolls(roll_balanced_dice, num_rolls, queue)`: the stateful
branch of the driver, threading `args[0]` (the queue) through the loop and
collecting results in order.  `i` is the index of the current iteration
(selecting the shuffle a rebuild would use); a `none` roll aborts the run. -/
def simulate_rolls_balanced (shuffles : Nat → List Int → List Int) :
    Nat → Nat → List Int → Option (List Int × List Int)
  | _, 0, queue => some ([], queue)
  | i, num_rolls + 1, queue =>
    match roll_balanced_dice (shuffles i) queue with
    | none => none
    | some (roll, queue') =>
      match simulate_rolls_balanced shuffles (i + 1) num_rolls queue' with
      | none => none
      | some (rest, final_queue) => some (roll :: rest, final_queue)

/-- The dict comprehension `{i: 0 for i in range(2, 13)}` of
`calculate_frequencies`. -/
def init_frequencies : List (Int × Nat) :=
  (List.range' 2 11).map (fun i => ((i : Int), 0))

/-- One iteration of the loop of `calculate_frequencies`:
`if result in frequencies: frequencies[result] += 1`. -/
def freq_step (frequencies : List (Int × Nat)) (result : Int) : List (Int × Nat) :=
  frequencies.map (fun p => if p.1 = result then (p.1, p.2 + 1) else p)

/-- `BalancedDiceGUI.calculate_frequencies(results)`: keys 2–12 start at
zero; each observed value increments its key if present, and is otherwise
ignored. -/
def calculate_frequencies (results : List Int) : List (Int × Nat) :=
  results.foldl freq_step init_frequencies

/-- A messagebox shown by the GUI (`messagebox.showerror` / `showinfo`). -/
inductive GuiMsg where
  | error (title text : String)
  | info (title text : String)
deriving DecidableEq

/-- The mutable state of `BalancedDiceGUI` touched by `start_simulation`:
the overlay flag, the `plotted_dice` set (`none` while the attribute does
not exist yet, mirroring the `hasattr` check), the series drawn on the
axes (label and results, in plotting order), and the sections of the
frequency text widget (label and frequency table, in insertion order). -/
structure GUIState where
  overlay_active : Bool
  plotted_dice : Option (List String)
  ax : List (String × List Int)
  text_freq : List (String × List (Int × Nat))
deriving DecidableEq

/-- `BalancedDiceGUI.start_simulation`.  Inputs: the die tape `d`, the
shuffle `shuffle0` used by `create_balanced_queue` for a fresh queue, the
shuffle family `shuffles` for rebuilds inside the driver, the parsed
content of the rolls entry (`none` when `int()` raises `ValueError`), the
`dice_choice` radio value, the `overlay_choice` checkbox, and the current
state.  Output: the new state and the messageboxes shown, or `none` when
the run raises.  Note the source shows the "Clear required" error when
`overlay_active` is set but does NOT return there. -/
def start_simulation (d : Nat → Int) (shuffle0 : List Int → List Int)
    (shuffles : Nat → List Int → List Int)
    (entry : Option Int) (dice_choice : String) (overlay_choice : Bool)
    (s : GUIState) : Option (GUIState × List GuiMsg) :=
  match entry with
  | none =>
    some (s, [GuiMsg.error "Error" "Invalid input: Please input a valid number of rolls."])
  | some num_rolls =>
  if num_rolls ≤ 0 then
    some (s, [GuiMsg.error "Error" "Invalid input: Please input a valid number of rolls."])
  else
    let msgs : List GuiMsg :=
      if s.overlay_active then
        [GuiMsg.error "Clear required" "Please clear the graph before plotting again."]
      else []
    let s1 := if ¬ overlay_choice then
        { s with ax := [], overlay_active := false, plotted_dice := some [] }
      else s
    let s2 := if s1.plotted_dice = none then { s1 with plotted_dice := some [] } else s1
    let run : Option (GUIState × List (String × List (Int × Nat))) :=
      if dice_choice = "Standard" then
        let stepS :=
          if "Standard" ∈ s2.plotted_dice.getD [] then (s2, [])
          else
            let standard_results := simulate_rolls_standard d num_rolls.toNat
            ({ s2 with
                ax := s2.ax ++ [("Standard dice", standard_results)],
                plotted_dice := some (s2.plotted_dice.getD [] ++ ["Standard"]) },
             [("Standard dice", calculate_frequencies standard_results)])
        if overlay_choice then
          if "Balanced" ∈ stepS.1.plotted_dice.getD [] then some stepS
          else
            match simulate_rolls_balanced shuffles 0 num_rolls.toNat
                (create_balanced_queue shuffle0 EXPECTED_DIST_2_12) with
            | none => none
            | some (balanced_results, _) =>
              some ({ stepS.1 with
                  ax := stepS.1.ax ++ [("Balanced dice", balanced_results)],
                  plotted_dice := some (stepS.1.plotted_dice.getD [] ++ ["Balanced"]),
                  overlay_active := true },
                stepS.2 ++ [("Balanced dice", calculate_frequencies balanced_results)])
        else some stepS
      else if dice_choice = "Balanced" then
        match
          (if "Balanced" ∈ s2.plotted_dice.getD [] then some (s2, [])
           else
             match simulate_rolls_balanced shuffles 0 num_rolls.toNat
                 (create_balanced_queue shuffle0 EXPECTED_DIST_2_12) with
             | none => none
             | some (balanced_results, _) =>
               some ({ s2 with
                   ax := s2.ax ++ [("Balanced dice", balanced_results)],
                   plotted_dice := some (s2.plotted_dice.getD [] ++ ["Balanced"]) },
                 [("Balanced dice", calculate_frequencies balanced_results)])) with
        | none => none
        | some stepB =>
          if overlay_choice then
            if "Standard" ∈ stepB.1.plotted_dice.getD [] then some stepB
            else
              let standard_results := simulate_rolls_standard d num_rolls.toNat
              some ({ stepB.1 with
                  ax := stepB.1.ax ++ [("Standard dice", standard_results)],
                  plotted_dice := some (stepB.1.plotted_dice.getD [] ++ ["Standard"]),
                  overlay_active := true },
                stepB.2 ++ [("Standard dice", calculate_frequencies standard_results)])
          else some stepB
      else some (s2, [])
    match run with
    | none => none
    | some (s3, displayed_frequencies) =>
      some ({ s3 with
          text_freq := (if ¬ overlay_choice then [] else s3.text_freq)
            ++ displayed_frequencies },
        msgs)

/-- Helper: a list of die-roll values, all of which lie in [2,12]. -/
def in_range (l : List Int) : Prop :=
  ∀ x ∈ l, 2 ≤ x ∧ x ≤ 12

instance (l : List Int) : Decidable (in_range l) :=
  inferInstanceAs (Decidable (∀ x ∈ l, 2 ≤ x ∧ x ≤ 12))

/-- Helper: popping proceeds from the tail of the queue.  Splitting the
queue as `a ++ b`, a run of `b.length` balanced rolls returns `b`
reversed and leaves `a` untouched, for any shuffle family and any start
index. -/
theorem simulate_balanced_append (shuffles : Nat → List Int → List Int)
    (b : List Int) : ∀ (a : List Int) (i : Nat),
    simulate_rolls_balanced shuffles i b.length (a ++ b) = some (b.reverse, a) := by
  induction b using List.reverseRecOn with
  | nil => intro a i; simp [simulate_rolls_balanced]
  | append_singleton l x ih =>
    intro a i
    have hlen : (l ++ [x]).length = l.length + 1 := by simp
    rw [hlen]
    have hne : a ++ l ++ [x] ≠ [] := by simp
    have hroll : roll_balanced_dice (shuffles i) (a ++ (l ++ [x]))
        = some (x, a ++ l) := by
      simp only [roll_balanced_dice, ← List.append_assoc, if_neg hne,
        List.getLast?_concat, List.dropLast_concat]
    rw [simulate_rolls_balanced, hroll]
    simp [ih]

/-- Helper: the weighted expansion of the distribution table, written out. -/
theorem expand_dist_eq :
    expand_dist EXPECTED_DIST_2_12 =
      [2, 3, 3, 4, 4, 4, 5, 5, 5, 5, 6, 6, 6, 6, 6, 7, 7, 7, 7, 7, 7,
       8, 8, 8, 8, 8, 9, 9, 9, 9, 10, 10, 10, 11, 11, 12] := by decide

/-- Helper: one full cycle holds 36 values. -/
theorem expand_dist_length : (expand_dist EXPECTED_DIST_2_12).length = 36 := by
  decide

/-- Helper: every value of a full cycle lies in [2,12]. -/
theorem expand_dist_in_range : in_range (expand_dist EXPECTED_DIST_2_12) := by
  decide

/-- Helper: one `roll_balanced_dice` call, assuming the shuffle permutes the
expanded table, always succeeds; the popped value and the remaining queue
reassemble into either a freshly built full cycle (empty input queue) or
the input queue itself. -/
theorem roll_balanced_cases (shuffle : List Int → List Int) (q : List Int)
    (hs : (shuffle (expand_dist EXPECTED_DIST_2_12)).Perm (expand_dist EXPECTED_DIST_2_12)) :
    ∃ r q', roll_balanced_dice shuffle q = some (r, q')
      ∧ ((q = [] ∧ (q' ++ [r]).Perm (expand_dist EXPECTED_DIST_2_12))
         ∨ (q ≠ [] ∧ q' ++ [r] = q)) := by
  by_cases hq : q = []
  · subst hq
    have hne : create_balanced_queue shuffle EXPECTED_DIST_2_12 ≠ [] := by
      intro h
      have := hs.length_eq
      rw [create_balanced_queue] at h
      rw [h] at this
      rw [expand_dist_length] at this
      exact absurd this (by decide)
    refine ⟨(create_balanced_queue shuffle EXPECTED_DIST_2_12).getLast hne,
      (create_balanced_queue shuffle EXPECTED_DIST_2_12).dropLast, ?_, ?_⟩
    · have hred : roll_balanced_dice shuffle [] =
          match (create_balanced_queue shuffle EXPECTED_DIST_2_12).getLast? with
          | some v => some (v, (create_balanced_queue shuffle EXPECTED_DIST_2_12).dropLast)
          | none => none := rfl
      rw [hred, List.getLast?_eq_getLast _ hne]
    · left
      refine ⟨rfl, ?_⟩
      rw [List.dropLast_concat_getLast hne]
      exact hs
  · refine ⟨q.getLast hq, q.dropLast, ?_, ?_⟩
    · simp only [roll_balanced_dice, if_neg hq]
      rw [List.getLast?_eq_getLast _ hq]
    · right
      exact ⟨hq, List.dropLast_concat_getLast hq⟩

/-- Helper: folding the counting step over a result list adds, to every
entry of the table, the number of occurrences of its key. -/
theorem foldl_freq_step (results : List Int) : ∀ fs : List (Int × Nat),
    results.foldl freq_step fs
      = fs.map (fun p => (p.1, p.2 + results.count p.1)) := by
  induction results with
  | nil =>
    intro fs
    simp
  | cons r rs ih =>
    intro fs
    rw [List.foldl_cons, ih, freq_step, List.map_map]
    have hfun : ((fun p : Int × Nat => (p.1, p.2 + rs.count p.1)) ∘
          (fun p : Int × Nat => if p.1 = r then (p.1, p.2 + 1) else p))
        = fun p : Int × Nat => (p.1, p.2 + (r :: rs).count p.1) := by
      funext p
      by_cases h : p.1 = r
      all_goals simp [Function.comp, h, List.count_cons]
      all_goals omega
    rw [hfun]

/-- Helper: `calculate_frequencies` produces exactly the keys 2–12 in
order, each mapped to the number of its occurrences in the input. -/
theorem calculate_frequencies_count (results : List Int) :
    calculate_frequencies results
      = (List.range' 2 11).map (fun v => ((v : Int), results.count (v : Int))) := by
  rw [calculate_frequencies, foldl_freq_step, init_frequencies, List.map_map]
  simp

/-- Helper: for any shuffle family that permutes the expanded table, any
number of balanced rolls succeeds from any starting queue. -/
theorem simulate_balanced_total (shuffles : Nat → List Int → List Int)
    (hs : ∀ k, (shuffles k (expand_dist EXPECTED_DIST_2_12)).Perm
      (expand_dist EXPECTED_DIST_2_12)) :
    ∀ (n i : Nat) (q : List Int), ∃ res qf,
      simulate_rolls_balanced shuffles i n q = some (res, qf) := by
  intro n
  induction n with
  | zero => intro i q; exact ⟨[], q, rfl⟩
  | succ n ih =>
    intro i q
    obtain ⟨r, q', hr, -⟩ := roll_balanced_cases (shuffles i) q (hs i)
    obtain ⟨res, qf, hsim⟩ := ih (i + 1) q'
    exact ⟨r :: res, qf, by simp [simulate_rolls_balanced, hr, hsim]⟩

/-- Helper: from a queue of values in [2,12], `n` balanced rolls succeed
and produce exactly `n` values in [2,12], leaving a queue of values in
[2,12]. -/
theorem simulate_balanced_range (shuffles : Nat → List Int → List Int)
    (hs : ∀ k, (shuffles k (expand_dist EXPECTED_DIST_2_12)).Perm
      (expand_dist EXPECTED_DIST_2_12)) :
    ∀ (n i : Nat) (q : List Int), in_range q → ∃ res qf,
      simulate_rolls_balanced shuffles i n q = some (res, qf)
        ∧ res.length = n ∧ in_range res ∧ in_range qf := by
  intro n
  induction n with
  | zero =>
    intro i q hq
    exact ⟨[], q, rfl, rfl, fun x hx => absurd hx (List.not_mem_nil x), hq⟩
  | succ n ih =>
    intro i q hq
    obtain ⟨r, q', hr, hcase⟩ := roll_balanced_cases (shuffles i) q (hs i)
    have hqr : in_range (q' ++ [r]) := by
      rcases hcase with ⟨-, hperm⟩ | ⟨-, heq⟩
      · intro x hx
        exact expand_dist_in_range x (hperm.mem_iff.mp hx)
      · rw [heq]
        exact hq
    have hq' : in_range q' := fun x hx => hqr x (List.mem_append_left _ hx)
    have hrr : 2 ≤ r ∧ r ≤ 12 := hqr r (by simp)
    obtain ⟨res, qf, hsim, hlen, hres, hqf⟩ := ih (i + 1) q' hq'
    refine ⟨r :: res, qf, by simp [simulate_rolls_balanced, hr, hsim],
      by simp [hlen], ?_, hqf⟩
    intro x hx
    rcases List.mem_cons.mp hx with h | h
    · exact h ▸ hrr
    · exact hres x h

/-- Queue states reachable in the core: a freshly built cycle, followed by
any number of balanced rolls, each build using some permuting shuffle. -/
inductive Reachable : List Int → Prop where
  | init (shuffle : List Int → List Int)
      (hs : (shuffle (expand_dist EXPECTED_DIST_2_12)).Perm
        (expand_dist EXPECTED_DIST_2_12)) :
      Reachable (create_balanced_queue shuffle EXPECTED_DIST_2_12)
  | step (q q' : List Int) (r : Int) (shuffle : List Int → List Int)
      (hs : (shuffle (expand_dist EXPECTED_DIST_2_12)).Perm
        (expand_dist EXPECTED_DIST_2_12))
      (hq : Reachable q) (hr : roll_balanced_dice shuffle q = some (r, q')) :
      Reachable q'

/-- C6: `create_balanced_queue` applied to the Distribution Table returns a
sequence of total length 36 whose multiset is a permutation of the weighted
expansion of the table: each outcome `v` in [2,12] occurs exactly
`weight(v)` times, for every permutation the shuffle may pick. -/
theorem create_balanced_queue_correct (shuffle : List Int → List Int)
    (hs : (shuffle (expand_dist EXPECTED_DIST_2_12)).Perm
      (expand_dist EXPECTED_DIST_2_12)) :
    (create_balanced_queue shuffle EXPECTED_DIST_2_12).length = 36
    ∧ (create_balanced_queue shuffle EXPECTED_DIST_2_12).Perm
        (expand_dist EXPECTED_DIST_2_12)
    ∧ ∀ v : Int, 2 ≤ v → v ≤ 12 →
        (create_balanced_queue shuffle EXPECTED_DIST_2_12).count v
          = (EXPECTED_DIST_2_12.lookup v).getD 0 := by
  refine ⟨?_, hs, ?_⟩
  · rw [create_balanced_queue, hs.length_eq, expand_dist_length]
  · intro v h2 h12
    rw [create_balanced_queue, hs.count_eq]
    interval_cases v <;> decide

/-- C6 witness: the identity shuffle. -/
theorem create_balanced_queue_correct_witness :
    (create_balanced_queue (fun l => l) EXPECTED_DIST_2_12).length = 36
    ∧ (create_balanced_queue (fun l => l) EXPECTED_DIST_2_12).count 7
        = (EXPECTED_DIST_2_12.lookup 7).getD 0 :=
  ⟨(create_balanced_queue_correct (fun l => l) (List.Perm.refl _)).1,
   (create_balanced_queue_correct (fun l => l) (List.Perm.refl _)).2.2 7
     (by decide) (by decide)⟩

/-- C1: 36 consecutive balanced rolls starting from a freshly built queue
aggregate to exactly the Distribution Table weights, for every permutation
the shuffle may pick (the run also empties the queue, ending the cycle). -/
theorem cycle_fidelity (shuffle : List Int → List Int)
    (shuffles : Nat → List Int → List Int) (i : Nat)
    (hs : (shuffle (expand_dist EXPECTED_DIST_2_12)).Perm
      (expand_dist EXPECTED_DIST_2_12)) :
    ∃ res : List Int,
      simulate_rolls_balanced shuffles i 36
          (create_balanced_queue shuffle EXPECTED_DIST_2_12) = some (res, [])
        ∧ calculate_frequencies res = EXPECTED_DIST_2_12 := by
  have hlen : (create_balanced_queue shuffle EXPECTED_DIST_2_12).length = 36 := by
    rw [create_balanced_queue, hs.length_eq, expand_dist_length]
  have happ := simulate_balanced_append shuffles
    (create_balanced_queue shuffle EXPECTED_DIST_2_12) [] i
  rw [List.nil_append, hlen] at happ
  refine ⟨(create_balanced_queue shuffle EXPECTED_DIST_2_12).reverse, happ, ?_⟩
  rw [calculate_frequencies_count]
  have hcnt : ∀ v : Int,
      (create_balanced_queue shuffle EXPECTED_DIST_2_12).reverse.count v
        = (expand_dist EXPECTED_DIST_2_12).count v := by
    intro v
    rw [List.count_reverse]
    exact hs.count_eq v
  simp only [hcnt]
  decide

/-- C1 witness: the identity shuffle. -/
theorem cycle_fidelity_witness :
    ∃ res : List Int,
      simulate_rolls_balanced (fun _ l => l) 0 36
          (create_balanced_queue (fun l => l) EXPECTED_DIST_2_12) = some (res, [])
        ∧ calculate_frequencies res = EXPECTED_DIST_2_12 :=
  cycle_fidelity (fun l => l) (fun _ l => l) 0 (List.Perm.refl _)

/-- C4: balanced rolling is self-healing — a roll never fails for any queue
state; a roll from an empty queue rebuilds a full 36-element cycle before
popping (35 values remain); and any number of balanced rolls from any
starting queue completes without error. -/
theorem self_healing (shuffles : Nat → List Int → List Int)
    (hs : ∀ k l, (shuffles k l).Perm l) :
    (∀ (k : Nat) (q : List Int), ∃ r q',
        roll_balanced_dice (shuffles k) q = some (r, q'))
    ∧ (∀ k : Nat, ∃ r q', roll_balanced_dice (shuffles k) [] = some (r, q')
        ∧ q'.length = 35)
    ∧ ∀ (n i : Nat) (q : List Int), ∃ res qf,
        simulate_rolls_balanced shuffles i n q = some (res, qf) := by
  have hs' : ∀ k, (shuffles k (expand_dist EXPECTED_DIST_2_12)).Perm
      (expand_dist EXPECTED_DIST_2_12) := fun k => hs k _
  refine ⟨?_, ?_, simulate_balanced_total shuffles hs'⟩
  · intro k q
    obtain ⟨r, q', hr, -⟩ := roll_balanced_cases (shuffles k) q (hs' k)
    exact ⟨r, q', hr⟩
  · intro k
    obtain ⟨r, q', hr, hcase⟩ := roll_balanced_cases (shuffles k) [] (hs' k)
    refine ⟨r, q', hr, ?_⟩
    rcases hcase with ⟨-, hperm⟩ | ⟨hne, -⟩
    · have hl := hperm.length_eq
      rw [expand_dist_length] at hl
      simp at hl
      omega
    · exact absurd rfl hne

/-- C4 witness: rolling once from the empty queue with identity shuffles. -/
theorem self_healing_witness :
    ∃ r q', roll_balanced_dice (fun l : List Int => l) [] = some (r, q')
      ∧ q'.length = 35 :=
  (self_healing (fun _ l => l) (fun _ l => List.Perm.refl l)).2.1 0

/-- C5: every reachable queue state is a depleting fragment of one
distribution cycle (each value occurs at most as often as in the cycle);
from the empty queue, the next roll rebuilds a full 36-element cycle before
yielding a value. -/
theorem balanced_queue_invariant (q : List Int) (hq : Reachable q) :
    (∀ v : Int, q.count v ≤ (expand_dist EXPECTED_DIST_2_12).count v)
    ∧ (q = [] → ∀ shuffle : List Int → List Int,
        (shuffle (expand_dist EXPECTED_DIST_2_12)).Perm
          (expand_dist EXPECTED_DIST_2_12) →
        ∃ r q', roll_balanced_dice shuffle q = some (r, q')
          ∧ (q' ++ [r]).Perm (expand_dist EXPECTED_DIST_2_12)
          ∧ (q' ++ [r]).length = 36) := by
  constructor
  · induction hq with
    | init shuffle hs =>
      intro v
      exact le_of_eq (hs.count_eq v)
    | step q₁ q' r shuffle hs hq₁ hr ih =>
      intro v
      obtain ⟨r₀, q₀, hr₀, hcase⟩ := roll_balanced_cases shuffle q₁ hs
      rw [hr] at hr₀
      injection hr₀ with hpair
      obtain ⟨he1, he2⟩ := Prod.mk.injEq .. ▸ hpair
      subst he1
      subst he2
      have hle : q'.count v ≤ (q' ++ [r]).count v := by
        rw [List.count_append]
        exact Nat.le_add_right _ _
      rcases hcase with ⟨-, hperm⟩ | ⟨-, heq⟩
      · exact hle.trans (le_of_eq (hperm.count_eq v))
      · rw [heq] at hle
        exact hle.trans (ih v)
  · intro hq0 shuffle hs
    obtain ⟨r, q', hr, hcase⟩ := roll_balanced_cases shuffle q hs
    rcases hcase with ⟨-, hperm⟩ | ⟨hne, -⟩
    · exact ⟨r, q', hr, hperm, by rw [hperm.length_eq, expand_dist_length]⟩
    · exact absurd hq0 hne

/-- C5 witness: the freshly built queue under the identity shuffle. -/
theorem balanced_queue_invariant_witness :
    (create_balanced_queue (fun l => l) EXPECTED_DIST_2_12).count 7
      ≤ (expand_dist EXPECTED_DIST_2_12).count 7 :=
  (balanced_queue_invariant _
    (Reachable.init (fun l => l) (List.Perm.refl _))).1 7

/-- C3: for `n ≥ 1`, the driver returns exactly `n` outcomes in [2,12] for
either roller — Standard with any valid die tape, or Balanced from any
queue state (a list of values in [2,12], per the data model), in production
order with none dropped. -/
theorem simulate_sequence_correct
    (d : Nat → Int) (hd : ∀ k, 1 ≤ d k ∧ d k ≤ 6)
    (shuffles : Nat → List Int → List Int) (hs : ∀ k l, (shuffles k l).Perm l)
    (n : Nat) (_hn : 1 ≤ n) (i : Nat) (q : List Int) (hq : in_range q) :
    ((simulate_rolls_standard d n).length = n
      ∧ in_range (simulate_rolls_standard d n))
    ∧ ∃ res qf, simulate_rolls_balanced shuffles i n q = some (res, qf)
        ∧ res.length = n ∧ in_range res := by
  refine ⟨⟨?_, ?_⟩, ?_⟩
  · simp [simulate_rolls_standard]
  · intro x hx
    rw [simulate_rolls_standard] at hx
    obtain ⟨j, hj, hxe⟩ := List.mem_map.mp hx
    obtain ⟨h1, h2⟩ := hd (2 * j)
    obtain ⟨h3, h4⟩ := hd (2 * j + 1)
    rw [← hxe]
    simp only [roll_standard_dice]
    omega
  · obtain ⟨res, qf, hsim, hlen, hres, -⟩ :=
      simulate_balanced_range shuffles (fun k => hs k _) n i q hq
    exact ⟨res, qf, hsim, hlen, hres⟩

/-- C3 witness: two rolls, constant die tape, identity shuffles, queue
`[5]` (forcing one rebuild). -/
theorem simulate_sequence_correct_witness :
    ((simulate_rolls_standard (fun _ => 1) 2).length = 2
      ∧ in_range (simulate_rolls_standard (fun _ => 1) 2))
    ∧ ∃ res qf, simulate_rolls_balanced (fun _ l => l) 0 2 [5] = some (res, qf)
        ∧ res.length = 2 ∧ in_range res :=
  simulate_sequence_correct (fun _ => 1)
    (by intro k; show (1 : Int) ≤ 1 ∧ (1 : Int) ≤ 6; decide)
    (fun _ l => l) (fun _ l => List.Perm.refl l) 2 (by decide) 0 [5] (by decide)

/-- C7: the aggregator maps exactly the keys 2–12 (in order) to the number
of occurrences of each key — so out-of-range values are ignored without
failure — and the two concrete examples of the spec hold, as does one with
out-of-range values present. -/
theorem calculate_frequencies_correct :
    (∀ results : List Int, calculate_frequencies results
        = (List.range' 2 11).map (fun v => ((v : Int), results.count (v : Int))))
    ∧ calculate_frequencies []
        = [(2, 0), (3, 0), (4, 0), (5, 0), (6, 0), (7, 0), (8, 0), (9, 0),
           (10, 0), (11, 0), (12, 0)]
    ∧ calculate_frequencies [7, 7, 2]
        = [(2, 1), (3, 0), (4, 0), (5, 0), (6, 0), (7, 2), (8, 0), (9, 0),
           (10, 0), (11, 0), (12, 0)]
    ∧ calculate_frequencies [0, 13, 7, 7, 2]
        = [(2, 1), (3, 0), (4, 0), (5, 0), (6, 0), (7, 2), (8, 0), (9, 0),
           (10, 0), (11, 0), (12, 0)] :=
  ⟨calculate_frequencies_count, by decide, by decide, by decide⟩

/-- C8: a request for zero rolls short-circuits — it returns the empty
outcome sequence and the threaded queue unchanged, with no pop and no
rebuild (and the standard driver likewise returns no outcomes). -/
theorem zero_rolls_short_circuit (shuffles : Nat → List Int → List Int)
    (d : Nat → Int) (i : Nat) (q : List Int) :
    simulate_rolls_balanced shuffles i 0 q = some ([], q)
    ∧ simulate_rolls_standard d 0 = [] :=
  ⟨rfl, rfl⟩

/-- C9: the aggregator is a pure function of its input — equal inputs give
identical frequency tables. -/
theorem calculate_frequencies_deterministic (results1 results2 : List Int)
    (h : results1 = results2) :
    calculate_frequencies results1 = calculate_frequencies results2 :=
  congrArg calculate_frequencies h

/-- C9 witness. -/
theorem calculate_frequencies_deterministic_witness :
    calculate_frequencies [7, 7, 2] = calculate_frequencies [7, 7, 2] :=
  calculate_frequencies_deterministic [7, 7, 2] [7, 7, 2] rfl

/-- C10: `pop` removes from the tail — for `1 ≤ n ≤ length(q)`, `n`
balanced rolls from `q` return exactly the last `n` elements of `q` in
reverse order and leave the first `length(q) − n` elements unchanged, in
their original order. -/
theorem pop_order (shuffles : Nat → List Int → List Int) (i : Nat)
    (q : List Int) (n : Nat) (h1 : 1 ≤ n) (h2 : n ≤ q.length) :
    simulate_rolls_balanced shuffles i n q
      = some ((q.drop (q.length - n)).reverse, q.take (q.length - n)) := by
  have happ := simulate_balanced_append shuffles (q.drop (q.length - n))
    (q.take (q.length - n)) i
  rw [List.take_append_drop] at happ
  rw [List.length_drop] at happ
  have hn : q.length - (q.length - n) = n := by omega
  rw [hn] at happ
  exact happ

/-- C10 witness: two rolls from `[5, 9, 11]` pop 11 then 9, leaving `[5]`. -/
theorem pop_order_witness :
    simulate_rolls_balanced (fun _ l => l) 0 2 [5, 9, 11] = some ([11, 9], [5]) :=
  pop_order (fun _ l => l) 0 [5, 9, 11] 2 (by decide) (by decide)

/-- C2: the code does NOT reject a simulate request arriving while two
series are plotted (`overlay_active` set).  With the overlay checkbox
meanwhile unticked, `start_simulation` shows the "Clear required" error but
then falls through: it clears the axes, resets the overlay flag and the
plotted-dice set, runs a fresh Standard simulation, plots it and rewrites
the frequency display — core state is mutated despite the rejection
signal. -/
theorem overlay_conflict_not_rejected :
    start_simulation (fun _ => 1) (fun l => l) (fun _ l => l) (some 1)
        "Standard" false
        ⟨true, some ["Standard", "Balanced"],
         [("Standard dice", [7]), ("Balanced dice", [7])], []⟩
      = some (⟨false, some ["Standard"], [("Standard dice", [2])],
              [("Standard dice",
                [(2, 1), (3, 0), (4, 0), (5, 0), (6, 0), (7, 0), (8, 0),
                 (9, 0), (10, 0), (11, 0), (12, 0)])]⟩,
             [GuiMsg.error "Clear required"
               "Please clear the graph before plotting again."]) := by
  decide
